import Mathlib

/-!
# Verification of the Hindi→English Excel batch-translation engine

Shallow embedding of `src/app.py` (the batch translation engine of
`Hi2EnExcelTranslationApp`).  Strings are modelled as `List Char`
(Python strings are sequences of code points, and `len`/indexing count
code points).  The remote HTTP service, `time.sleep` and the Streamlit
UI calls are modelled by an oracle `Nat → CallOutcome` giving the
outcome of each `requests.post` invocation; warnings/errors printed to
the UI carry no data and are dropped.
-/

namespace App

/-- Python `str.strip()` whitespace set, restricted to the ASCII
whitespace characters (` `, `\t`, `\n`, `\r`, `\x0b`, `\x0c`), the ones
that occur in this application's data. -/
def isPySpace (c : Char) : Bool :=
  c = ' ' || c = '\t' || c = '\n' || c = '\r' || c = '\x0b' || c = '\x0c'

/-- Python `str.strip()`: drop whitespace from both ends. -/
def pyStrip (l : List Char) : List Char :=
  ((l.dropWhile isPySpace).reverse.dropWhile isPySpace).reverse

/-- Python `''.join(parts)`. -/
def joinParts (ps : List (List Char)) : List Char :=
  ps.foldr (· ++ ·) []

/-- First-match association-list lookup, modelling Python `dict`
membership tests and `dict.get` for the dictionaries of the app (keys
are written at most once along each modelled execution, so first-match
agrees with Python's last-write-wins). -/
def lookupAssoc : List (List Char × List Char) → List Char → Option (List Char)
  | [], _ => none
  | (k', v') :: rest, k => if k = k' then some v' else lookupAssoc rest k

/-! ## Fragment Classifier — `is_hindi_text` (src/app.py lines 51–65) -/

/-- One code point of the Devanagari block `[ऀ-ॿ]`,
the character class of `re.findall(r'[ऀ-ॿ]', text)`. -/
def isDevanagari (c : Char) : Bool :=
  0x900 ≤ c.toNat && c.toNat ≤ 0x97F

/-- `len(re.findall(r'[ऀ-ॿ]', text))`. -/
def hindiCharCount (l : List Char) : Nat :=
  (l.filter isDevanagari).length

/-- `is_hindi_text` (src/app.py lines 51–65).  The float comparison
`hindi_chars / total_chars > 0.3` is embedded as the exact rational
comparison `10 * hindi_chars > 3 * total_chars`: for the integer
operand ranges that arise (counts bounded by a cell's length) the two
agree, since a quotient of such integers is never close enough to 0.3
for double rounding to cross the boundary, and 0.3 itself compares
equal. -/
def is_hindi_text (text : List Char) : Bool :=
  let t := pyStrip text
  if t = [] then
    false
  else
    let hindi := hindiCharCount t
    let total := t.length
    (2 ≤ hindi && 3 * total < 10 * hindi) || 5 < hindi

/-! ## Fragment Splitter — `split_text_parts` (src/app.py lines 67–72)

`re.split(r'(<br>|<[^>]*>|\[.*?\]|\(.*?\))', text)` with one capturing
group returns the non-matching runs interleaved with the matched
delimiters.  `matchDelim` decides whether a delimiter match starts at
the current position, trying the alternatives in the pattern's order;
`splitAux` scans left to right exactly like the regex engine. -/

/-- The alternative `<br>`. -/
def matchBr : List Char → Option (List Char × List Char)
  | '<' :: 'b' :: 'r' :: '>' :: r => some (['<', 'b', 'r', '>'], r)
  | _ => none

/-- The alternative `<[^>]*>`: `[^>]*` greedily takes non-`>`
characters, then a literal `>` must follow. -/
def matchAngle : List Char → Option (List Char × List Char)
  | '<' :: rest =>
    match rest.dropWhile (fun c => c != '>') with
    | '>' :: r => some ('<' :: (rest.takeWhile (fun c => c != '>') ++ ['>']), r)
    | _ => none
  | _ => none

/-- The alternatives `\[.*?\]` and `\(.*?\)`: a lazy `.*?` takes the
fewest characters (never a newline, as `.` excludes `\n`) before the
closing character. -/
def matchPair (openC closeC : Char) : List Char → Option (List Char × List Char)
  | c :: rest =>
    if c = openC then
      match rest.dropWhile (fun d => d != closeC && d != '\n') with
      | d :: r =>
        if d = closeC then
          some (openC :: (rest.takeWhile (fun d => d != closeC && d != '\n') ++ [closeC]), r)
        else none
      | [] => none
    else none
  | [] => none

/-- A delimiter match of `(<br>|<[^>]*>|\[.*?\]|\(.*?\))` at the head
of the input, alternatives tried in the pattern's order; returns the
matched text and the remainder. -/
def matchDelim (l : List Char) : Option (List Char × List Char) :=
  match matchBr l with
  | some x => some x
  | none =>
    match matchAngle l with
    | some x => some x
    | none =>
      match matchPair '[' ']' l with
      | some x => some x
      | none => matchPair '(' ')' l

/-- Left-to-right scan of `re.split` with a capturing pattern: `acc`
holds the current non-matching run (reversed).  Fuel bounds the
recursion; `fuel = length of the input` is always sufficient because
every step consumes at least one character. -/
def splitAux : Nat → List Char → List Char → List (List Char)
  | 0, l, acc => [acc.reverse ++ l]
  | _ + 1, [], acc => [acc.reverse]
  | fuel + 1, c :: rest, acc =>
    match matchDelim (c :: rest) with
    | some (d, r) => acc.reverse :: d :: splitAux fuel r []
    | none => splitAux fuel rest (c :: acc)

/-- `split_text_parts` (src/app.py lines 67–72): `[]` on empty input,
otherwise the `re.split` scan. -/
def split_text_parts (s : List Char) : List (List Char) :=
  if s = [] then [] else splitAux s.length s []

/-! ## Style mapping — `get_language_style_for_class` (src/app.py lines 34–45) -/

/-- The `class_to_age_mapping` dict literal (src/app.py lines 35–44). -/
def class_to_age_mapping : List (List Char × List Char) :=
  [(['A'], "for a 3-year-old child".toList),
   (['B'], "for a 4-year-old child".toList),
   (['C'], "for a 5-year-old child".toList),
   (['1'], "for a 6-year-old child".toList),
   (['2'], "for a 7-year-old child".toList),
   (['3'], "for a 8-year-old child".toList),
   (['4'], "for a 9-year-old child".toList),
   (['5'], "for a 10-year-old child".toList)]

/-- The `.get` default `'for a 6-year old'` (src/app.py line 45). -/
def default_language_style : List Char := "for a 6-year old".toList

/-- `get_language_style_for_class` (src/app.py lines 34–45). -/
def get_language_style_for_class (student_class : List Char) : List Char :=
  (lookupAssoc class_to_age_mapping student_class).getD default_language_style

/-! ## Request Executor — `openwebui_request` (src/app.py lines 75–128)

The outcome of each `requests.post` call is given by an oracle
`call : Nat → CallOutcome` indexed by the attempt number. -/

/-- Shape of the body of an HTTP response, as seen by
`response.json().get("choices", [{}])[0].get("message", {}).get("content", cleaned_text)`:
either the chained lookups find a content string, or they fall through
to the default (`okMissing`), or evaluating the expression raises —
`.json()` fails to parse, or `"choices"` maps to an empty list so the
`[0]` raises `IndexError` (`okMalformed`). -/
inductive RespBody where
  | okContent (s : List Char)
  | okMissing
  | okMalformed
deriving DecidableEq

/-- Outcome of one `requests.post` call: a response with a status code
and body, or a `requests.exceptions.RequestException`. -/
inductive CallOutcome where
  | resp (status : Nat) (body : RespBody)
  | requestException
deriving DecidableEq

/-- What the loop body (src/app.py lines 96–121) does with one call
outcome: return a result (possibly writing the cache), or sleep and
move to the next attempt. -/
inductive StepRes where
  | done (result : List Char) (cacheWrite : Option (List Char))
  | retry
deriving DecidableEq

/-- One iteration of the retry loop (src/app.py lines 96–121):
status 200 extracts the content (writing it through to the cache), a
missing content field yields the default `cleaned_text` (also written
through), a malformed body raises out of the loop to the outer handler
(src/app.py lines 126–128) which returns `cleaned_text` with no cache
write; status 429 and every other non-200 status sleep and retry, and
a `RequestException` is caught, sleeps and retries. -/
def stepOutcome (cleaned : List Char) : CallOutcome → StepRes
  | .resp status body =>
    if status = 200 then
      match body with
      | .okContent s => .done s (some s)
      | .okMissing => .done cleaned (some cleaned)
      | .okMalformed => .done cleaned none
    else .retry
  | .requestException => .retry

/-- Result of one `openwebui_request` invocation: the returned text,
the translation cache afterwards, and how many `requests.post` calls
were made. -/
structure ReqResult where
  result : List Char
  cache : List (List Char × List Char)
  calls : Nat
deriving DecidableEq

/-- The retry loop `for attempt in range(max_attempts)` (src/app.py
lines 95–121), followed by the fall-through `return cleaned_text`
(line 124).  `made` counts the `requests.post` calls made so far. -/
def runAttempts (call : Nat → CallOutcome) (cleaned key : List Char)
    (cache : List (List Char × List Char)) (made : Nat) :
    List Nat → ReqResult
  | [] => ⟨cleaned, cache, made⟩
  | a :: rest =>
    match stepOutcome cleaned (call a) with
    | .done r w =>
      ⟨r, match w with | some v => (key, v) :: cache | none => cache, made + 1⟩
    | .retry => runAttempts call cleaned key cache (made + 1) rest

/-- The cache key `f"{cleaned_text}_{language_style}"` (src/app.py
line 77). -/
def mkCacheKey (cleaned language_style : List Char) : List Char :=
  cleaned ++ '_' :: language_style

/-- `openwebui_request` (src/app.py lines 75–128): cache lookup, then
up to `max_attempts = 5` remote calls. -/
def openwebui_request (call : Nat → CallOutcome) (cleaned language_style : List Char)
    (cache : List (List Char × List Char)) : ReqResult :=
  let key := mkCacheKey cleaned language_style
  match lookupAssoc cache key with
  | some v => ⟨v, cache, 0⟩
  | none => runAttempts call cleaned key cache 0 (List.range 5)

/-- One queued invocation of the Request Executor: its `requests.post`
oracle and the `cleaned_text` / `language_style` arguments. -/
structure Req where
  call : Nat → CallOutcome
  cleaned : List Char
  style : List Char

/-- A sequence of `openwebui_request` invocations threading the shared
`translation_cache`. -/
def runMany (reqs : List Req) (cache : List (List Char × List Char)) :
    List (List Char × List Char) :=
  reqs.foldl (fun c r => (openwebui_request r.call r.cleaned r.style c).cache) cache

/-! ## Deduplication (src/app.py lines 257–263)

```
unique_texts = []
seen = set()
for text, style in texts_to_translate:
    if text not in seen:
        unique_texts.append((text, style))
        seen.add(text)
```
-/

/-- The dedup loop with its `seen` set accumulated explicitly. -/
def dedupAux : List (List Char × List Char) → List (List Char) → List (List Char × List Char)
  | [], _ => []
  | (t, s) :: rest, seen =>
    if t ∈ seen then dedupAux rest seen
    else (t, s) :: dedupAux rest (t :: seen)

/-- `unique_texts` as computed from `texts_to_translate` (src/app.py
lines 257–263). -/
def dedup_unique_texts (texts_to_translate : List (List Char × List Char)) :
    List (List Char × List Char) :=
  dedupAux texts_to_translate []

/-! ## Phase 1 — collection (src/app.py lines 193–252) -/

/-- The per-cell collection of `texts_to_translate` entries (src/app.py
lines 226–236): split the cell, and for each part classified Hindi
whose stripped text is non-empty, emit `(cleaned, language_style)`. -/
def collect_cell_texts (cellText language_style : List Char) :
    List (List Char × List Char) :=
  (split_text_parts cellText).filterMap fun part =>
    if is_hindi_text part then
      let cleaned := pyStrip part
      if cleaned = [] then none else some (cleaned, language_style)
    else none

/-- One spreadsheet data row: the value of its `Class` column cell and
the string-valued cells of the row. -/
structure Row where
  classCode : List Char
  cells : List (List Char)
deriving DecidableEq

/-- `valid_classes = ['A','B','C','1','2','3','4','5']` (src/app.py
line 170). -/
def valid_classes : List (List Char) :=
  [['A'], ['B'], ['C'], ['1'], ['2'], ['3'], ['4'], ['5']]

/-- Phase-1 accumulator: `texts_to_translate`, the indices of rows
whose cells were processed into `cell_mapping`, and `error_count`. -/
structure Phase1State where
  texts : List (List Char × List Char)
  processedRows : List Nat
  errors : Nat
deriving DecidableEq

/-- The texts a whole row contributes (src/app.py lines 224–236): each
cell that is a non-empty string after stripping is split and
collected. -/
def rowTexts (language_style : List Char) (cells : List (List Char)) :
    List (List Char × List Char) :=
  cells.foldl
    (fun acc c =>
      if pyStrip c = [] then acc else acc ++ collect_cell_texts c language_style)
    []

/-- The inner `for row_idx in range(start_row, end_row)` loop over one
chunk (src/app.py lines 206–252): an invalid class code warns, counts
an error and `continue`s; a valid row is processed, and afterwards
`if error_count > 5: break` leaves this chunk's loop. -/
def processChunkRows : List (Nat × Row) → Phase1State → Phase1State
  | [], st => st
  | (idx, r) :: rest, st =>
    let student_class := pyStrip r.classCode
    if student_class ∉ valid_classes then
      processChunkRows rest ⟨st.texts, st.processedRows, st.errors + 1⟩
    else
      let language_style := get_language_style_for_class student_class
      let st' : Phase1State :=
        ⟨st.texts ++ rowTexts language_style r.cells,
         st.processedRows ++ [idx], st.errors⟩
      if 5 < st'.errors then st'
      else processChunkRows rest st'

/-- Splitting a list into chunks of `n` (the
`for chunk_idx in range(num_chunks)` partition, src/app.py
lines 199–204); fuel = input length is always enough. -/
def chunksOfAux (n : Nat) : Nat → List α → List (List α)
  | 0, l => if l.isEmpty then [] else [l]
  | fuel + 1, l => if l.isEmpty then [] else l.take n :: chunksOfAux n fuel (l.drop n)

/-- The chunk partition with `chunk_size = 10` generalized to `n`. -/
def chunksOf (n : Nat) (l : List α) : List (List α) :=
  chunksOfAux n l.length l

/-- Phase 1 of `process_excel` (src/app.py lines 193–252): the data
rows (spreadsheet rows 2, 3, …) are processed in chunks of
`chunk_size = 10`; the outer chunk loop never exits early — only the
inner per-chunk loop can `break`. -/
def phase1 (rows : List Row) : Phase1State :=
  (chunksOf 10 (List.enumFrom 2 rows)).foldl
    (fun st chunk => processChunkRows chunk st) ⟨[], [], 0⟩

/-! ## Reconstruction (src/app.py lines 226–244 and 288–311) -/

/-- The `cell_parts` flag list built in phase 1 (src/app.py
lines 228–236): one `(part_idx, is_hindi)` entry per part — a Hindi
part is recorded with `True` (only when its stripped text is
non-empty), any other part with `False`. -/
def flagOfPart (ip : Nat × List Char) : Option (Nat × Bool) :=
  if is_hindi_text ip.2 then
    if pyStrip ip.2 = [] then none else some (ip.1, true)
  else some (ip.1, false)

/-- The `cell_parts` list of a cell's parts. -/
def cell_parts_flags (parts : List (List Char)) : List (Nat × Bool) :=
  parts.enum.filterMap flagOfPart

/-- The text one `(part_idx, is_hindi)` entry contributes during
reconstruction (src/app.py lines 296–302): a Hindi part is replaced by
`translations.get(parts[part_idx].strip(), parts[part_idx].strip())`,
any other part is copied verbatim. -/
def segOfFlag (parts : List (List Char)) (translations : List (List Char × List Char))
    (ib : Nat × Bool) : List Char :=
  if ib.2 then
    let cleaned := pyStrip (parts.getD ib.1 [])
    (lookupAssoc translations cleaned).getD cleaned
  else parts.getD ib.1 []

/-- The cell rebuild `''.join(translated_parts)` (src/app.py
lines 295–305). -/
def rebuild_cell (parts : List (List Char)) (flags : List (Nat × Bool))
    (translations : List (List Char × List Char)) : List Char :=
  joinParts (flags.map (segOfFlag parts translations))

/-- The whole per-cell pipeline: phase-1 split/flags (src/app.py
lines 226–244) composed with the reconstruction pass (lines 288–305). -/
def reconstruct_cell (cellText : List Char)
    (translations : List (List Char × List Char)) : List Char :=
  rebuild_cell (split_text_parts cellText)
    (cell_parts_flags (split_text_parts cellText)) translations

/-- Specification-side per-part substitution: what each span of the
split contributes to the final cell text. -/
def substPart (translations : List (List Char × List Char)) (p : List Char) : List Char :=
  if is_hindi_text p then
    (lookupAssoc translations (pyStrip p)).getD (pyStrip p)
  else p

/-! ## Lemmas about the splitter -/

theorem matchBr_append {l d r : List Char} (h : matchBr l = some (d, r)) :
    d ++ r = l := by
  unfold matchBr at h
  split at h
  · simp only [Option.some.injEq, Prod.mk.injEq] at h
    obtain ⟨h1, h2⟩ := h
    subst h1; subst h2
    rfl
  · cases h

theorem matchAngle_append {l d r : List Char} (h : matchAngle l = some (d, r)) :
    d ++ r = l := by
  unfold matchAngle at h
  split at h
  next rest =>
    split at h
    next r' heq =>
      simp only [Option.some.injEq, Prod.mk.injEq] at h
      obtain ⟨h1, h2⟩ := h
      subst h1; subst h2
      have hsplit := List.takeWhile_append_dropWhile (p := fun c => c != '>') (l := rest)
      rw [heq] at hsplit
      simp only [List.cons_append, List.append_assoc, List.singleton_append, List.nil_append]
      rw [hsplit]
    next => cases h
  next => cases h

theorem matchPair_append {openC closeC : Char} {l d r : List Char}
    (h : matchPair openC closeC l = some (d, r)) : d ++ r = l := by
  unfold matchPair at h
  split at h
  next c rest =>
    split at h
    next hopen =>
      subst hopen
      split at h
      next d' r' heq =>
        split at h
        next hclose =>
          simp only [Option.some.injEq, Prod.mk.injEq] at h
          obtain ⟨h1, h2⟩ := h
          subst h1; subst h2
          have hsplit := List.takeWhile_append_dropWhile
            (p := fun d => d != closeC && d != '\n') (l := rest)
          rw [heq, hclose] at hsplit
          simp only [List.cons_append, List.append_assoc, List.singleton_append,
            List.nil_append]
          rw [hsplit]
        next => cases h
      next => cases h
    next => cases h
  next => cases h

theorem matchDelim_append {l d r : List Char} (h : matchDelim l = some (d, r)) :
    d ++ r = l := by
  unfold matchDelim at h
  split at h
  next heq => cases h; exact matchBr_append heq
  next =>
    split at h
    next heq => cases h; exact matchAngle_append heq
    next =>
      split at h
      next heq => cases h; exact matchPair_append heq
      next => exact matchPair_append h

theorem joinParts_cons (a : List Char) (ps : List (List Char)) :
    joinParts (a :: ps) = a ++ joinParts ps := rfl

theorem splitAux_join :
    ∀ (fuel : Nat) (l acc : List Char),
      joinParts (splitAux fuel l acc) = acc.reverse ++ l := by
  intro fuel
  induction fuel with
  | zero =>
    intro l acc
    simp [splitAux, joinParts]
  | succ fuel ih =>
    intro l acc
    match l with
    | [] => simp [splitAux, joinParts]
    | c :: rest =>
      simp only [splitAux]
      cases h : matchDelim (c :: rest) with
      | some dr =>
        obtain ⟨d, r⟩ := dr
        simp only [joinParts_cons, ih r []]
        rw [List.reverse_nil, List.nil_append, ← List.append_assoc,
          List.append_assoc, matchDelim_append h]
      | none =>
        rw [ih rest (c :: acc)]
        simp

/-! ## Lemmas about the Request Executor -/

/-- A call outcome on which the retry loop does not return: an
exception or a non-200 status. -/
def FailedOutcome : CallOutcome → Prop
  | .resp status _ => status ≠ 200
  | .requestException => True

instance : DecidablePred FailedOutcome := by
  intro o
  cases o with
  | resp status body => exact inferInstanceAs (Decidable (status ≠ 200))
  | requestException => exact inferInstanceAs (Decidable True)

theorem stepOutcome_of_failed {cleaned : List Char} {o : CallOutcome}
    (h : FailedOutcome o) : stepOutcome cleaned o = .retry := by
  cases o with
  | resp status body =>
    simp only [FailedOutcome] at h
    simp [stepOutcome, h]
  | requestException => rfl

theorem runAttempts_all_failed (call : Nat → CallOutcome) (cleaned key : List Char)
    (cache : List (List Char × List Char)) :
    ∀ (attempts : List Nat) (made : Nat), (∀ a ∈ attempts, FailedOutcome (call a)) →
      runAttempts call cleaned key cache made attempts =
        ⟨cleaned, cache, made + attempts.length⟩ := by
  intro attempts
  induction attempts with
  | nil => intro made _; rfl
  | cons a rest ih =>
    intro made hall
    have ha : FailedOutcome (call a) := hall a (List.mem_cons_self a rest)
    simp only [runAttempts, stepOutcome_of_failed ha]
    rw [ih (made + 1) (fun b hb => hall b (List.mem_cons_of_mem a hb))]
    simp only [List.length_cons]
    congr 1
    omega

/-- The retry loop leaves the cache unchanged or conses exactly one
binding for its own key onto it. -/
theorem runAttempts_cache_shape (call : Nat → CallOutcome) (cleaned key : List Char)
    (cache : List (List Char × List Char)) :
    ∀ (attempts : List Nat) (made : Nat),
      (runAttempts call cleaned key cache made attempts).cache = cache ∨
        ∃ v, (runAttempts call cleaned key cache made attempts).cache =
          (key, v) :: cache := by
  intro attempts
  induction attempts with
  | nil => intro made; exact Or.inl rfl
  | cons a rest ih =>
    intro made
    simp only [runAttempts]
    cases hstep : stepOutcome cleaned (call a) with
    | done r w =>
      cases w with
      | some v => exact Or.inr ⟨v, rfl⟩
      | none => exact Or.inl rfl
    | retry => exact ih (made + 1)

theorem lookupAssoc_cons_ne {cache : List (List Char × List Char)}
    {k key v : List Char} (hne : k ≠ key) :
    lookupAssoc ((key, v) :: cache) k = lookupAssoc cache k := by
  simp [lookupAssoc, hne]

/-- One Request Executor invocation never changes an existing cache
binding: it writes at most its own key, and only after finding that
key absent. -/
theorem openwebui_request_preserves (call : Nat → CallOutcome)
    (cleaned style : List Char) (cache : List (List Char × List Char))
    (k v : List Char) (hk : lookupAssoc cache k = some v) :
    lookupAssoc (openwebui_request call cleaned style cache).cache k = some v := by
  simp only [openwebui_request]
  cases hkey : lookupAssoc cache (mkCacheKey cleaned style) with
  | some w => exact hk
  | none =>
    show lookupAssoc
      (runAttempts call cleaned (mkCacheKey cleaned style) cache 0 (List.range 5)).cache
      k = some v
    rcases runAttempts_cache_shape call cleaned (mkCacheKey cleaned style) cache
        (List.range 5) 0 with hsh | ⟨w, hsh⟩
    · rw [hsh]; exact hk
    · rw [hsh]
      have hne : k ≠ mkCacheKey cleaned style := by
        intro heq
        rw [heq, hkey] at hk
        cases hk
      rw [lookupAssoc_cons_ne hne]
      exact hk

/-! ## Lemmas about deduplication -/

theorem dedupAux_notMem_seen :
    ∀ (l : List (List Char × List Char)) (seen : List (List Char))
      (q : List Char × List Char), q ∈ dedupAux l seen → q.1 ∉ seen := by
  intro l
  induction l with
  | nil => intro seen q hq; cases hq
  | cons p rest ih =>
    intro seen q hq
    obtain ⟨t, s⟩ := p
    by_cases ht : t ∈ seen
    · simp only [dedupAux, if_pos ht] at hq
      exact ih seen q hq
    · simp only [dedupAux, if_neg ht] at hq
      rcases List.mem_cons.mp hq with hq | hq
      · subst hq; exact ht
      · have := ih (t :: seen) q hq
        intro hmem
        exact this (List.mem_cons_of_mem t hmem)

theorem dedupAux_pairwise :
    ∀ (l : List (List Char × List Char)) (seen : List (List Char)),
      (dedupAux l seen).Pairwise (fun a b => a.1 ≠ b.1) := by
  intro l
  induction l with
  | nil => intro seen; exact List.Pairwise.nil
  | cons p rest ih =>
    intro seen
    obtain ⟨t, s⟩ := p
    by_cases ht : t ∈ seen
    · simp only [dedupAux, if_pos ht]
      exact ih seen
    · simp only [dedupAux, if_neg ht]
      refine List.Pairwise.cons ?_ (ih (t :: seen))
      intro q hq
      have := dedupAux_notMem_seen rest (t :: seen) q hq
      intro heq
      exact this (heq ▸ List.mem_cons_self t seen)

theorem dedupAux_sublist :
    ∀ (l : List (List Char × List Char)) (seen : List (List Char)),
      (dedupAux l seen).Sublist l := by
  intro l
  induction l with
  | nil => intro seen; exact List.Sublist.refl []
  | cons p rest ih =>
    intro seen
    obtain ⟨t, s⟩ := p
    by_cases ht : t ∈ seen
    · simp only [dedupAux, if_pos ht]
      exact (ih seen).cons (t, s)
    · simp only [dedupAux, if_neg ht]
      exact (ih (t :: seen)).cons₂ (t, s)

theorem dedupAux_covers :
    ∀ (l : List (List Char × List Char)) (seen : List (List Char))
      (p : List Char × List Char), p ∈ l →
        p.1 ∈ seen ∨ p.1 ∈ (dedupAux l seen).map Prod.fst := by
  intro l
  induction l with
  | nil => intro seen p hp; cases hp
  | cons q rest ih =>
    intro seen p hp
    obtain ⟨t, s⟩ := q
    by_cases ht : t ∈ seen
    · simp only [dedupAux, if_pos ht]
      rcases List.mem_cons.mp hp with hp | hp
      · subst hp; exact Or.inl ht
      · exact ih seen p hp
    · simp only [dedupAux, if_neg ht, List.map_cons]
      rcases List.mem_cons.mp hp with hp | hp
      · subst hp; exact Or.inr (List.mem_cons_self t _)
      · rcases ih (t :: seen) p hp with hseen | hmap
        · rcases List.mem_cons.mp hseen with h1 | h1
          · exact Or.inr (h1 ▸ List.mem_cons_self t _)
          · exact Or.inl h1
        · exact Or.inr (List.mem_cons_of_mem t hmap)

/-! ## Lemmas about `pyStrip` and reconstruction -/

theorem head?_dropWhile_space :
    ∀ (l : List Char) (c : Char),
      (l.dropWhile isPySpace).head? = some c → isPySpace c = false := by
  intro l
  induction l with
  | nil => intro c h; cases h
  | cons a t ih =>
    intro c h
    by_cases ha : isPySpace a
    · rw [List.dropWhile_cons_of_pos (by simpa using ha)] at h
      exact ih c h
    · rw [List.dropWhile_cons_of_neg (by simpa using ha)] at h
      cases h
      simpa using ha

theorem getLast?_dropWhile_space :
    ∀ (l : List Char),
      l.dropWhile isPySpace = [] ∨
        (l.dropWhile isPySpace).getLast? = l.getLast? := by
  intro l
  induction l with
  | nil => exact Or.inl rfl
  | cons a t ih =>
    by_cases ha : isPySpace a
    · rw [List.dropWhile_cons_of_pos (by simpa using ha)]
      rcases ih with h | h
      · exact Or.inl h
      · cases ht : t.dropWhile isPySpace with
        | nil => exact Or.inl rfl
        | cons b u =>
          right
          rw [ht] at h
          rw [h]
          cases t with
          | nil => cases ht
          | cons x y => rw [List.getLast?_cons_cons]
    · rw [List.dropWhile_cons_of_neg (by simpa using ha)]
      exact Or.inr rfl

theorem pyStrip_head_not_space (l : List Char) (c : Char)
    (h : (pyStrip l).head? = some c) : isPySpace c = false := by
  unfold pyStrip at h
  rw [List.head?_reverse] at h
  rcases getLast?_dropWhile_space ((l.dropWhile isPySpace).reverse) with hnil | hlast
  · rw [hnil] at h
    cases h
  · rw [hlast, List.getLast?_reverse] at h
    exact head?_dropWhile_space l c h

theorem pyStrip_getLast_not_space (l : List Char) (c : Char)
    (h : (pyStrip l).getLast? = some c) : isPySpace c = false := by
  unfold pyStrip at h
  rw [List.getLast?_reverse] at h
  exact head?_dropWhile_space (l.dropWhile isPySpace).reverse c h

theorem is_hindi_text_strip_ne {p : List Char} (h : is_hindi_text p = true) :
    pyStrip p ≠ [] := by
  intro he
  rw [is_hindi_text] at h
  simp only [he] at h
  cases h

theorem mem_enumFrom_getD {α : Type} (d : α) :
    ∀ (l : List α) (n i : Nat) (a : α), (i, a) ∈ l.enumFrom n →
      n ≤ i ∧ l.getD (i - n) d = a := by
  intro l
  induction l with
  | nil => intro n i a h; cases h
  | cons x t ih =>
    intro n i a h
    rw [List.enumFrom] at h
    rcases List.mem_cons.mp h with h | h
    · injection h with h1 h2
      subst h1; subst h2
      refine ⟨Nat.le_refl i, ?_⟩
      rw [Nat.sub_self, List.getD_cons_zero]
    · obtain ⟨h1, h2⟩ := ih (n + 1) i a h
      refine ⟨by omega, ?_⟩
      have hi : i - n = (i - (n + 1)) + 1 := by omega
      rw [hi, List.getD_cons_succ]
      exact h2

theorem rebuild_enumFrom (tr : List (List Char × List Char))
    (full : List (List Char)) :
    ∀ (parts : List (List Char)) (n : Nat),
      (∀ i a, (i, a) ∈ parts.enumFrom n → full.getD i [] = a) →
      joinParts (((parts.enumFrom n).filterMap flagOfPart).map (segOfFlag full tr)) =
        joinParts (parts.map (substPart tr)) := by
  intro parts
  induction parts with
  | nil => intro n _; rfl
  | cons p rest ih =>
    intro n h
    have hp : full.getD n [] = p := h n p (by rw [List.enumFrom]; exact List.mem_cons_self _ _)
    have htail : ∀ i a, (i, a) ∈ rest.enumFrom (n + 1) → full.getD i [] = a := by
      intro i a hmem
      exact h i a (by rw [List.enumFrom]; exact List.mem_cons_of_mem _ hmem)
    rw [List.enumFrom, List.map_cons]
    by_cases hh : is_hindi_text p = true
    · have hne : pyStrip p ≠ [] := is_hindi_text_strip_ne hh
      rw [List.filterMap_cons]
      have hflag : flagOfPart (n, p) = some (n, true) := by
        simp [flagOfPart, hh, hne]
      rw [hflag, List.map_cons, joinParts_cons, joinParts_cons]
      have hseg : segOfFlag full tr (n, true) = substPart tr p := by
        simp only [segOfFlag, substPart, hp, if_pos rfl, hh, if_pos]
      rw [hseg, ih (n + 1) htail]
    · have hh' : is_hindi_text p = false := by
        cases hb : is_hindi_text p
        · rfl
        · exact absurd hb hh
      rw [List.filterMap_cons]
      have hflag : flagOfPart (n, p) = some (n, false) := by
        simp [flagOfPart, hh']
      rw [hflag, List.map_cons, joinParts_cons, joinParts_cons]
      have hseg : segOfFlag full tr (n, false) = substPart tr p := by
        simp only [segOfFlag, substPart, hp, hh']
      rw [hseg, ih (n + 1) htail]

/-- The composed per-cell pipeline equals the per-part substitution
map: each part classified Hindi contributes
`translations.get(part.strip(), part.strip())`, every other part is
copied verbatim. -/
theorem rebuild_cell_spec (parts : List (List Char))
    (tr : List (List Char × List Char)) :
    rebuild_cell parts (cell_parts_flags parts) tr =
      joinParts (parts.map (substPart tr)) := by
  unfold rebuild_cell cell_parts_flags
  have henum : parts.enum = parts.enumFrom 0 := rfl
  rw [henum]
  refine rebuild_enumFrom tr parts parts 0 ?_
  intro i a hmem
  obtain ⟨-, h2⟩ := mem_enumFrom_getD [] parts 0 i a hmem
  simpa using h2

/-! ## Claim theorems -/

/-- C1: for every cell string, concatenating in order the text of all
spans returned by `split_text_parts` reproduces the input string
exactly. -/
theorem C1_split_roundTrip (s : List Char) :
    joinParts (split_text_parts s) = s := by
  unfold split_text_parts
  by_cases hs : s = []
  · subst hs; rfl
  · rw [if_neg hs]
    exact splitAux_join s.length s []

/-- C5: `is_hindi_text` returns true exactly when the stripped span
has at least 2 Devanagari code points and either those exceed 30% of
the stripped span's character count or their count exceeds 5; 2 of 10
characters is not translatable, 2 of 5 is, 6 Devanagari characters of
20 is regardless of ratio, and empty or whitespace-only input never
is. -/
theorem C5_is_hindi_text_boundary :
    (∀ s : List Char, is_hindi_text s = true ↔
      2 ≤ hindiCharCount (pyStrip s) ∧
        (3 * (pyStrip s).length < 10 * hindiCharCount (pyStrip s) ∨
          5 < hindiCharCount (pyStrip s))) ∧
    is_hindi_text "कखabcdefgh".toList = false ∧
    is_hindi_text "कखabc".toList = true ∧
    is_hindi_text "कखगघङचabcdefghijklmn".toList = true ∧
    is_hindi_text [] = false ∧
    is_hindi_text "   ".toList = false := by
  refine ⟨?_, by decide, by decide, by decide, by decide, by decide⟩
  intro s
  unfold is_hindi_text
  by_cases ht : pyStrip s = []
  · rw [ht]
    simp [hindiCharCount]
  · rw [if_neg ht]
    simp only [Bool.or_eq_true, Bool.and_eq_true, decide_eq_true_eq]
    omega

/-- C2 counterexample: two work items with equal normalized text and
different styles do not both survive deduplication — the second is
dropped, so the claimed dedup key (normalizedText, style) is wrong. -/
theorem C2_counterexample :
    dedup_unique_texts
        [("कखगघ".toList, "for a 8-year-old child".toList),
         ("कखगघ".toList, "for a 9-year-old child".toList)] =
      [("कखगघ".toList, "for a 8-year-old child".toList)] ∧
    ("for a 8-year-old child".toList : List Char) ≠
      "for a 9-year-old child".toList := by
  refine ⟨by decide, by decide⟩

/-- C2 amended: deduplication is by normalized text alone, ignoring
style: the output is a subsequence of the input (first-seen order)
with pairwise-distinct texts, and every input text is represented —
so of two fragments with equal text and different styles only the
first survives, and each distinct text, not each (text, style) pair,
is submitted once. -/
theorem C2_dedup_by_text_only (l : List (List Char × List Char)) :
    (dedup_unique_texts l).Pairwise (fun a b => a.1 ≠ b.1) ∧
    (dedup_unique_texts l).Sublist l ∧
    ∀ p ∈ l, p.1 ∈ (dedup_unique_texts l).map Prod.fst :=
  ⟨dedupAux_pairwise l [], dedupAux_sublist l [],
    fun p hp => (dedupAux_covers l [] p hp).resolve_left (List.not_mem_nil p.1)⟩

theorem C2_dedup_by_text_only_witness :
    (['क'] : List Char) ∈ (dedup_unique_texts [(['क'], ['A'])]).map Prod.fst :=
  (C2_dedup_by_text_only [(['क'], ['A'])]).2.2 (['क'], ['A']) (by decide)

/-- C3 counterexample: the cell `"(कखगघ)"` splits into a single
delimiter span (the parenthesized aside occupies the odd position of
the split, and `matchDelim` consumes it whole), yet that delimiter
span is classified translatable and collected into
`texts_to_translate` — delimiter spans with qualifying code points ARE
submitted for translation. -/
theorem C3_counterexample :
    matchDelim "(कखगघ)".toList = some ("(कखगघ)".toList, []) ∧
    (split_text_parts "(कखगघ)".toList).getD 1 [] = "(कखगघ)".toList ∧
    ("(कखगघ)".toList, "for a 8-year-old child".toList) ∈
      collect_cell_texts "(कखगघ)".toList "for a 8-year-old child".toList := by
  refine ⟨by decide, by decide, by decide⟩

/-- C3 amended: submission is governed solely by `is_hindi_text`,
applied uniformly to every span of the split, delimiter or not: every
submitted text is the stripped text of some span classified
translatable, and conversely every span classified translatable is
submitted — so a delimiter span is withheld from translation only when
it fails the classification. -/
theorem C3_submission_by_classification (cell style t st : List Char) :
    ((t, st) ∈ collect_cell_texts cell style →
      st = style ∧ ∃ p, p ∈ split_text_parts cell ∧
        is_hindi_text p = true ∧ t = pyStrip p) ∧
    (∀ p, p ∈ split_text_parts cell → is_hindi_text p = true →
      (pyStrip p, style) ∈ collect_cell_texts cell style) := by
  constructor
  · intro h
    unfold collect_cell_texts at h
    obtain ⟨p, hp, hf⟩ := List.mem_filterMap.mp h
    by_cases hh : is_hindi_text p
    · rw [if_pos hh] at hf
      simp only at hf
      by_cases hc : pyStrip p = []
      · rw [if_pos hc] at hf
        cases hf
      · rw [if_neg hc] at hf
        simp only [Option.some.injEq, Prod.mk.injEq] at hf
        obtain ⟨h1, h2⟩ := hf
        exact ⟨h2.symm, p, hp, hh, h1.symm⟩
    · rw [if_neg hh] at hf
      cases hf
  · intro p hp hh
    unfold collect_cell_texts
    refine List.mem_filterMap.mpr ⟨p, hp, ?_⟩
    rw [if_pos hh]
    simp only
    rw [if_neg (is_hindi_text_strip_ne hh)]

theorem C3_submission_by_classification_witness :
    ("कखगघ".toList, ['A']) ∈ collect_cell_texts "कखगघ".toList ['A'] :=
  (C3_submission_by_classification "कखगघ".toList ['A'] "कखगघ".toList ['A']).2
    "कखगघ".toList (by decide) (by decide)

/-- C4: on a cache miss, a work item whose remote call always fails
(exception or non-200 status on every attempt) is attempted exactly 5
times (`max_attempts = 5`), after which `openwebui_request` returns
the original `cleaned_text` unchanged, leaving the cache as it was;
`openwebui_request` is embedded as a total function because the inner
handler catches `RequestException` and the outer handler catches
everything else, so no exception escapes its boundary. -/
theorem C4_retry_ceiling (call : Nat → CallOutcome) (cleaned style : List Char)
    (cache : List (List Char × List Char))
    (hmiss : lookupAssoc cache (mkCacheKey cleaned style) = none)
    (hfail : ∀ n, FailedOutcome (call n)) :
    openwebui_request call cleaned style cache = ⟨cleaned, cache, 5⟩ := by
  simp only [openwebui_request, hmiss]
  rw [runAttempts_all_failed call cleaned (mkCacheKey cleaned style) cache
    (List.range 5) 0 (fun a _ => hfail a)]
  rfl

theorem C4_retry_ceiling_witness :
    openwebui_request (fun _ => CallOutcome.requestException) ['क'] ['A'] [] =
      ⟨['क'], [], 5⟩ :=
  C4_retry_ceiling (fun _ => CallOutcome.requestException) ['क'] ['A'] [] rfl
    (fun _ => trivial)

/-- C7: translation-cache entries are immutable once written.  The
Request Executor checks the cache before any remote call and writes
only a key it found absent, so across any sequence of executor
invocations an existing binding keeps its first-written value, and an
invocation whose key is already cached returns that first value with
no remote call and no cache change. -/
theorem C7_cache_first_writer_wins :
    (∀ (reqs : List Req) (cache : List (List Char × List Char)) (k v : List Char),
      lookupAssoc cache k = some v →
        lookupAssoc (runMany reqs cache) k = some v) ∧
    (∀ (call : Nat → CallOutcome) (cleaned style : List Char)
        (cache : List (List Char × List Char)) (v : List Char),
      lookupAssoc cache (mkCacheKey cleaned style) = some v →
        openwebui_request call cleaned style cache = ⟨v, cache, 0⟩) := by
  constructor
  · intro reqs
    induction reqs with
    | nil => intro cache k v h; exact h
    | cons r rest ih =>
      intro cache k v h
      exact ih _ k v (openwebui_request_preserves r.call r.cleaned r.style cache k v h)
  · intro call cleaned style cache v h
    simp only [openwebui_request, h]

theorem C7_cache_first_writer_wins_witness :
    lookupAssoc
      (runMany
        [⟨fun _ => CallOutcome.resp 200 (RespBody.okContent ['B']), ['क'], ['A']⟩]
        [(mkCacheKey ['क'] ['A'], ['V'])])
      (mkCacheKey ['क'] ['A']) = some ['V'] :=
  C7_cache_first_writer_wins.1
    [⟨fun _ => CallOutcome.resp 200 (RespBody.okContent ['B']), ['क'], ['A']⟩]
    [(mkCacheKey ['क'] ['A'], ['V'])] (mkCacheKey ['क'] ['A']) ['V'] (by decide)

/-- C8 counterexample: a success-status (200) response with an
unexpected shape is NOT retried, unlike a transport failure.  With a
200 response whose body lacks the content field the executor returns
after a single call (the chained `.get` defaults), with a 200 response
whose body is malformed it also returns after a single call (the
exception aborts to the outer handler), while a transport failure is
retried to the full 5-call ceiling. -/
theorem C8_counterexample :
    (openwebui_request (fun _ => CallOutcome.resp 200 RespBody.okMissing)
      ['क'] ['A'] []).calls = 1 ∧
    (openwebui_request (fun _ => CallOutcome.resp 200 RespBody.okMalformed)
      ['ख'] ['A'] []).calls = 1 ∧
    (openwebui_request (fun _ => CallOutcome.requestException)
      ['ग'] ['A'] []).calls = 5 := by
  refine ⟨rfl, rfl, rfl⟩

/-- C8 amended: only transport failures and non-success statuses are
retried with backoff up to the 5-attempt ceiling; a success-status
response with unexpected shape ends the call at once: a missing
content field makes the executor return (and cache) the original text
after that single attempt, and a malformed body makes it return the
original text after that single attempt without caching. -/
theorem C8_success_shape_not_retried (call : Nat → CallOutcome)
    (cleaned style : List Char) (cache : List (List Char × List Char))
    (hmiss : lookupAssoc cache (mkCacheKey cleaned style) = none) :
    (call 0 = CallOutcome.resp 200 RespBody.okMissing →
      openwebui_request call cleaned style cache =
        ⟨cleaned, (mkCacheKey cleaned style, cleaned) :: cache, 1⟩) ∧
    (call 0 = CallOutcome.resp 200 RespBody.okMalformed →
      openwebui_request call cleaned style cache = ⟨cleaned, cache, 1⟩) := by
  constructor <;>
    · intro h0
      simp only [openwebui_request, hmiss]
      rw [show List.range 5 = 0 :: [1, 2, 3, 4] from rfl]
      simp only [runAttempts, h0]
      rfl

theorem C8_success_shape_not_retried_witness :
    openwebui_request (fun _ => CallOutcome.resp 200 RespBody.okMissing)
      ['क'] ['A'] [] = ⟨['क'], [(mkCacheKey ['क'] ['A'], ['क'])], 1⟩ :=
  (C8_success_shape_not_retried (fun _ => CallOutcome.resp 200 RespBody.okMissing)
    ['क'] ['A'] [] rfl).1 rfl

/-- A row with class code `Z`, not in `valid_classes`. -/
def c6_invalid_row : Row := ⟨['Z'], []⟩

/-- Eleven data rows: six invalid rows, then a valid row (`कखग`),
then three valid rows (`घङच`) at the end of the first chunk of 10, and
one valid row (`छजझ`) opening the second chunk. -/
def c6_rows : List Row :=
  [c6_invalid_row, c6_invalid_row, c6_invalid_row,
   c6_invalid_row, c6_invalid_row, c6_invalid_row,
   ⟨['3'], ["कखग".toList]⟩,
   ⟨['3'], ["घङच".toList]⟩, ⟨['3'], ["घङच".toList]⟩, ⟨['3'], ["घङच".toList]⟩,
   ⟨['3'], ["छजझ".toList]⟩]

/-- C6: evaluation of phase 1 at the failing input `c6_rows`.  The six
invalid rows push `error_count` to 6 (> 5); the valid row at index 8
is processed and the `break` then ends the first chunk, skipping the
`घङच` rows — but the `break` leaves only the inner per-chunk loop, so
the first row of the second chunk (index 12, `छजझ`) is still fully
processed after "Too many errors - stopping processing" was reported,
contradicting the claim that no further rows of any chunk are
processed. -/
theorem C6_chunk_break_bug :
    (phase1 c6_rows).errors = 6 ∧
    (phase1 c6_rows).processedRows = [8, 12] ∧
    ("छजझ".toList, "for a 8-year-old child".toList) ∈ (phase1 c6_rows).texts ∧
    ("घङच".toList, "for a 8-year-old child".toList) ∉ (phase1 c6_rows).texts := by
  refine ⟨by decide, by decide, by decide, by decide⟩

/-- C9 counterexample: a row with unrecognized class code `Z` is NOT
processed with the default style — `process_excel` validates the code
against `valid_classes` before ever consulting
`get_language_style_for_class`, so the row is skipped and counted as
an error, even though the mapping itself would default. -/
theorem C9_counterexample :
    (phase1 [⟨['Z'], ["कखगघ".toList]⟩]).errors = 1 ∧
    (phase1 [⟨['Z'], ["कखगघ".toList]⟩]).texts = [] ∧
    (phase1 [⟨['Z'], ["कखगघ".toList]⟩]).processedRows = [] ∧
    get_language_style_for_class ['Z'] = default_language_style := by
  refine ⟨by decide, by decide, by decide, by decide⟩

theorem lookupAssoc_eq_none_of_not_mem_keys :
    ∀ (m : List (List Char × List Char)) (k : List Char),
      k ∉ m.map Prod.fst → lookupAssoc m k = none := by
  intro m
  induction m with
  | nil => intro k _; rfl
  | cons p rest ih =>
    intro k hk
    obtain ⟨k', v'⟩ := p
    rw [List.map_cons] at hk
    have h1 : k ≠ k' := fun he => hk (he ▸ List.mem_cons_self k' _)
    have h2 : k ∉ rest.map Prod.fst := fun hm => hk (List.mem_cons_of_mem k' hm)
    simp only [lookupAssoc, if_neg h1]
    exact ih k h2

/-- C9 amended: `get_language_style_for_class` maps any code outside
the 8-entry table to the default style `'for a 6-year old'` and maps
each of the 8 recognized codes `A,B,C,1,2,3,4,5` to its fixed
age-descriptor style (the table's keys are exactly `valid_classes`);
but the orchestrator validates the class code against `valid_classes`
first, so a row with an unrecognized code is skipped and counted as an
error — the mapping's default is unreachable through `process_excel`. -/
theorem C9_style_mapping (c : List Char) (idx : Nat) (row : Row)
    (rest : List (Nat × Row)) (st : Phase1State)
    (hc : c ∉ class_to_age_mapping.map Prod.fst)
    (hrow : pyStrip row.classCode ∉ valid_classes) :
    get_language_style_for_class c = default_language_style ∧
    (class_to_age_mapping.map Prod.fst = valid_classes ∧
      ∀ p ∈ class_to_age_mapping, get_language_style_for_class p.1 = p.2) ∧
    processChunkRows ((idx, row) :: rest) st =
      processChunkRows rest ⟨st.texts, st.processedRows, st.errors + 1⟩ := by
  refine ⟨?_, ⟨by decide, by decide⟩, ?_⟩
  · unfold get_language_style_for_class
    rw [lookupAssoc_eq_none_of_not_mem_keys class_to_age_mapping c hc]
    rfl
  · simp only [processChunkRows]
    rw [if_pos hrow]

theorem C9_style_mapping_witness :
    get_language_style_for_class ['Z'] = default_language_style ∧
    processChunkRows [(2, ⟨['Z'], [['क']]⟩)] ⟨[], [], 0⟩ = ⟨[], [], 1⟩ :=
  ⟨(C9_style_mapping ['Z'] 2 ⟨['Z'], [['क']]⟩ [] ⟨[], [], 0⟩
      (by decide) (by decide)).1,
   (C9_style_mapping ['Z'] 2 ⟨['Z'], [['क']]⟩ [] ⟨[], [], 0⟩
      (by decide) (by decide)).2.2⟩

/-- C10: reconstruction replaces every span classified Hindi by
`translations.get(span.strip(), span.strip())` and copies every other
span verbatim; in particular when no translation exists for the
stripped text the stripped text itself is substituted, and a stripped
text never starts or ends with whitespace — so a translatable span's
leading/trailing whitespace is absent from the final cell text even
when translation failed. -/
theorem C10_reconstruction_trims (cell : List Char)
    (translations : List (List Char × List Char)) :
    reconstruct_cell cell translations =
      joinParts ((split_text_parts cell).map (substPart translations)) ∧
    (∀ p, is_hindi_text p = true →
      lookupAssoc translations (pyStrip p) = none →
        substPart translations p = pyStrip p) ∧
    (∀ p c, (pyStrip p).head? = some c → isPySpace c = false) ∧
    (∀ p c, (pyStrip p).getLast? = some c → isPySpace c = false) := by
  refine ⟨rebuild_cell_spec _ _, ?_, pyStrip_head_not_space, pyStrip_getLast_not_space⟩
  intro p hh hl
  simp [substPart, hh, hl]

theorem C10_reconstruction_trims_witness :
    substPart [] "  कखगघ  ".toList = pyStrip "  कखगघ  ".toList :=
  (C10_reconstruction_trims "  कखगघ  ".toList []).2.1 "  कखगघ  ".toList
    (by decide) (by decide)

end App
